import Mathlib

/-!
Verification development for the order-book core of the dex repository.

The message-validation code (MsgCreateOrder.ValidateBasic,
MsgCreateTradingPair.ValidateBasic, src/unnamed/part_001) and the test-side
order constructor NewTO (src/unnamed/part_000) are embedded directly from the
source.  The keeper implementations (OrderKeeper, GlobalOrderKeeper,
DelistKeeper, OrderCleanUpDayKeeper) are not present under src/ — only their
tests and callers are — so those operations are modelled from the spec, with
behaviour pinned by the in-repository tests wherever the tests constrain it.
-/

/-- Modelled from the spec: the buy-side constant (`types.BUY`, whose defining
file is not under src/).  Only its distinctness from `SELL` matters here. -/
def BUY : Nat := 1

/-- Modelled from the spec: the sell-side constant (`types.SELL`). -/
def SELL : Nat := 2

/-- Modelled from the spec: the limit order-type constant (`types.LimitOrder`,
also written `types.LIMIT` in the tests); its defining file is not under src/. -/
def limitOrder : Nat := 2

/-- Modelled from the spec: the GTE time-in-force constant (`types.GTE`). -/
def GTE : Nat := 3

/-- Modelled from the spec: the IOC time-in-force constant (`types.IOC`). -/
def IOC : Nat := 4

/-- MaxTokenPricePrecision: the error message in
src/unnamed/part_001:117 pins the allowed range as 0..18. -/
def maxTokenPricePrecision : Nat := 18

/-- sdk.Precision, the decimal precision of cosmos-sdk Dec values (18). -/
def sdkPrecision : Nat := 18

/-- Modelled from the spec: asset.MaxTokenAmount, the upper bound on token
amounts checked by ValidateBasic; its defining file is not under src/ and only
its positivity is relevant to the claims. -/
def maxTokenAmount : Int := 5 * 10 ^ 18

/-- Modelled from the spec: types.SymbolSeparator, the separator of
stock/money in a trading-pair symbol such as "cet/usdt". -/
def symbolSeparator : String := "/"

/-- Scale factor of cosmos-sdk Dec: an sdk.Dec stores value * 10^18. -/
def decUnit : Nat := 10 ^ 18

/-- Half of `decUnit`, the tie point of sdk rounding (`fivePrecision`). -/
def decHalf : Nat := 5 * 10 ^ 17

/-- Core of cosmos-sdk chopPrecisionAndRound on non-negative inputs: divide
`d` by `den`, rounding half to even (`half` is `den / 2`). -/
def chopRoundNat (den half d : Nat) : Nat :=
  if d % den = 0 then d / den
  else if d % den < half then d / den
  else if half < d % den then d / den + 1
  else if d / den % 2 = 0 then d / den else d / den + 1

/-- cosmos-sdk chopPrecisionAndRound at a given scale: strips the sign,
rounds the magnitude half-to-even, and restores the sign. -/
def chopRoundInt (den half : Nat) (d : Int) : Int :=
  if d < 0 then -(chopRoundNat den half (-d).toNat : Int)
  else (chopRoundNat den half d.toNat : Int)

/-- cosmos-sdk chopPrecisionAndRound: remove 18 decimal places of an internal
Dec integer, rounding half to even. -/
def chopPrecisionAndRound (d : Int) : Int :=
  chopRoundInt decUnit decHalf d

/-- cosmos-sdk Dec: a fixed-point decimal stored as `i = value * 10^18`. -/
structure Dec where
  i : Int
deriving DecidableEq, Repr

/-- sdk.NewDec: the integer `n` as a Dec. -/
def Dec.newDec (n : Int) : Dec := ⟨n * (decUnit : Int)⟩

/-- sdk.Dec.QuoInt: truncated (Go big.Int Quo) division of the internal
integer by `n`. -/
def Dec.quoInt (a : Dec) (n : Int) : Dec := ⟨Int.tdiv a.i n⟩

/-- sdk.Dec.Mul: multiply internal integers, then chop 18 places with
half-to-even rounding. -/
def Dec.mul (a b : Dec) : Dec := ⟨chopPrecisionAndRound (a.i * b.i)⟩

/-- sdk.Dec.RoundInt64: round the Dec to an integer, half to even. -/
def Dec.roundInt64 (a : Dec) : Int := chopPrecisionAndRound a.i

/-- The Order entity (named `types.Order` in the source; renamed here because
Mathlib already owns the `Order` namespace) as used by the tests in
src/unnamed/part_000; the sender address is kept as its string form. -/
structure DexOrder where
  sender : String
  sequence : Nat
  tradingPair : String
  orderType : Nat
  price : Dec
  quantity : Int
  side : Nat
  timeInForce : Nat
  height : Int
  freeze : Int
  leftStock : Int
deriving DecidableEq, Repr

/-- OrderID of an order: sender, sequence and sub-index joined by dashes,
as pinned by src/unnamed/part_000:642 (`addr.String() + "-3" + "-0"`). -/
def orderIDOf (o : DexOrder) : String :=
  o.sender ++ "-" ++ toString o.sequence ++ "-0"

/-- NewTO from src/unnamed/part_000:538-558: build a test order whose price
is `price / 10^4` and whose freeze is the quantity for a sell and the rounded
money value `decPrice * qua` for a buy. -/
def NewTO (sender : String) (seq : Nat) (price qua : Int) (side : Nat)
    (tif : Nat) (h : Int) : DexOrder :=
  let decPrice := (Dec.newDec price).quoInt 10000
  let freeze := if side = BUY then (decPrice.mul (Dec.newDec qua)).roundInt64 else qua
  { sender := sender
    sequence := seq
    tradingPair := "cet/usdt"
    orderType := limitOrder
    price := decPrice
    quantity := qua
    side := side
    timeInForce := tif
    height := h
    freeze := freeze
    leftStock := qua }

/-- The six test orders of createTO1 (src/unnamed/part_000:578-588). -/
def to1_0 : DexOrder := NewTO "00001" 1 11051 50 BUY GTE 998

/-- Second createTO1 order (the best bid). -/
def to1_1 : DexOrder := NewTO "00002" 2 11080 50 BUY GTE 998

/-- Third createTO1 order. -/
def to1_2 : DexOrder := NewTO "00002" 3 10900 50 BUY GTE 992

/-- Fourth createTO1 order (the best ask). -/
def to1_3 : DexOrder := NewTO "00003" 2 11010 100 SELL IOC 997

/-- Fifth createTO1 order. -/
def to1_4 : DexOrder := NewTO "00004" 4 11032 60 SELL GTE 990

/-- Sixth createTO1 order. -/
def to1_5 : DexOrder := NewTO "00005" 5 12039 120 SELL GTE 996

/-- The createTO1 order list (src/unnamed/part_000:578-588). -/
def createTO1 : List DexOrder := [to1_0, to1_1, to1_2, to1_3, to1_4, to1_5]

/-- The createTO3 order list (src/unnamed/part_000:590-600): same buys, all
sell prices raised above every buy price, so the book does not cross. -/
def createTO3 : List DexOrder :=
  [NewTO "00001" 1 11051 50 BUY GTE 998,
   NewTO "00002" 2 11080 50 BUY GTE 998,
   NewTO "00002" 3 10900 50 BUY GTE 992,
   NewTO "00003" 2 12010 100 SELL IOC 997,
   NewTO "00004" 4 12032 60 SELL GTE 990,
   NewTO "00005" 5 12039 120 SELL GTE 996]

/-- A per-pair order book state: the resting orders of one trading pair,
each tagged with its insertion sequence number. -/
structure OrderBook where
  entries : List (Nat × DexOrder)
deriving DecidableEq, Repr

/-- Tag each order of a list with consecutive insertion sequence numbers
starting at `i`. -/
def indexFrom (i : Nat) : List DexOrder → List (Nat × DexOrder)
  | [] => []
  | o :: os => (i, o) :: indexFrom (i + 1) os

/-- The book obtained by `Add`-ing the given orders in list order into an
empty book (as the tests do). -/
def mkBook (os : List DexOrder) : OrderBook := ⟨indexFrom 0 os⟩

/-- All resting orders of a book, in insertion order. -/
def allOrders (b : OrderBook) : List DexOrder := b.entries.map (·.2)

/-- Modelled from the spec: `GetOrdersAtHeight(height)` of the per-pair
OrderKeeper (implementation not under src/) returns the orders created at
exactly `height`, in insertion order (spec section 4.1; pinned by
TestOrderBook1, src/unnamed/part_000:633-639). -/
def GetOrdersAtHeight (b : OrderBook) (h : Int) : List DexOrder :=
  (b.entries.filter (fun e => e.2.height = h)).map (·.2)

/-- Ascending (height, insertion sequence) lexicographic preorder on tagged
orders, the key order of the creation-height access path. -/
def heightSeqLe (a b : Nat × DexOrder) : Prop :=
  a.2.height < b.2.height ∨ (a.2.height = b.2.height ∧ a.1 ≤ b.1)

instance : DecidableRel heightSeqLe := fun a b => by
  unfold heightSeqLe
  exact inferInstance

instance : IsTotal (Nat × DexOrder) heightSeqLe := by
  constructor
  intro a b
  unfold heightSeqLe
  rcases Int.lt_trichotomy a.2.height b.2.height with h | h | h
  · exact Or.inl (Or.inl h)
  · rcases Nat.le_total a.1 b.1 with h' | h'
    · exact Or.inl (Or.inr ⟨h, h'⟩)
    · exact Or.inr (Or.inr ⟨h.symm, h'⟩)
  · exact Or.inr (Or.inl h)

instance : IsTrans (Nat × DexOrder) heightSeqLe := by
  constructor
  intro a b c hab hbc
  unfold heightSeqLe at *
  rcases hab with h1 | ⟨h1, h1'⟩
  · rcases hbc with h2 | ⟨h2, _⟩
    · exact Or.inl (h1.trans h2)
    · exact Or.inl (h2 ▸ h1)
  · rcases hbc with h2 | ⟨h2, h2'⟩
    · exact Or.inl (h1 ▸ h2)
    · exact Or.inr ⟨h1.trans h2, h1'.trans h2'⟩

/-- Modelled from the spec: `GetOlderThan(height)` of the per-pair
OrderKeeper (implementation not under src/) returns the orders with
creationHeight strictly below `height`.  The spec (section 4.1) words the
result order as ascending creationHeight, but the repository's own test
TestOrderBook1 (src/unnamed/part_000:626-631) pins the opposite: on the
createTO1 book, `GetOlderThan(997)` yields the orders of heights 996, 992,
990 in that sequence, i.e. a reverse iteration over the creation-height
access path.  The model follows the test: sort ascending, then reverse. -/
def GetOlderThan (b : OrderBook) (h : Int) : List DexOrder :=
  ((List.insertionSort heightSeqLe
      (b.entries.filter (fun e => e.2.height < h))).reverse).map (·.2)

/-- Buy-side resting orders, in insertion order. -/
def buysOf (b : OrderBook) : List DexOrder :=
  (allOrders b).filter (fun o => o.side = BUY)

/-- Sell-side resting orders, in insertion order. -/
def sellsOf (b : OrderBook) : List DexOrder :=
  (allOrders b).filter (fun o => o.side = SELL)

/-- Largest internal price of a non-empty order list. -/
def maxPriceAux (p : Int) : List DexOrder → Int
  | [] => p
  | o :: os => maxPriceAux (max p o.price.i) os

/-- Smallest internal price of a non-empty order list. -/
def minPriceAux (p : Int) : List DexOrder → Int
  | [] => p
  | o :: os => minPriceAux (min p o.price.i) os

/-- Best (highest) bid price of a book, if any buy order rests. -/
def bestBidPrice (b : OrderBook) : Option Int :=
  match buysOf b with
  | [] => none
  | o :: os => some (maxPriceAux o.price.i os)

/-- Best (lowest) ask price of a book, if any sell order rests. -/
def bestAskPrice (b : OrderBook) : Option Int :=
  match sellsOf b with
  | [] => none
  | o :: os => some (minPriceAux o.price.i os)

/-- Ascending (creationHeight, sequence) preorder on orders, the price-time
tie-break of matching candidates (spec section 4.1). -/
def candLe (a b : DexOrder) : Prop :=
  a.height < b.height ∨ (a.height = b.height ∧ a.sequence ≤ b.sequence)

instance : DecidableRel candLe := fun a b => by
  unfold candLe
  exact inferInstance

/-- Modelled from the spec: `GetMatchingCandidates()` of the per-pair
OrderKeeper (implementation not under src/), spec section 4.1: when both
sides are non-empty and the best bid is at least the best ask, the orders at
the best price level of each side, in price-time order; otherwise empty
(pinned as empty on one-sided and non-crossing books by TestOrderBook2a,
TestOrderBook2b and TestOrderBook3, src/unnamed/part_000:666-704). -/
def GetMatchingCandidates (b : OrderBook) : List DexOrder :=
  match bestBidPrice b, bestAskPrice b with
  | some bb, some ba =>
    if ba ≤ bb then
      List.insertionSort candLe
        ((buysOf b).filter (fun o => o.price.i = bb) ++
         (sellsOf b).filter (fun o => o.price.i = ba))
    else []
  | some _, none => []
  | none, _ => []

/-- The createTO1 book used throughout the order-book tests. -/
def book1 : OrderBook := mkBook createTO1

/-- The createTO3 (non-crossing) book of TestOrderBook3. -/
def book3 : OrderBook := mkBook createTO3

/-- The buys-only book of TestOrderBook2a. -/
def bookBuys : OrderBook := mkBook (createTO1.filter (fun o => o.side = BUY))

/-- The sells-only book of TestOrderBook2b. -/
def bookSells : OrderBook := mkBook (createTO1.filter (fun o => o.side = SELL))

/-- Modelled from the spec: the GlobalOrderIndex (GlobalOrderKeeper, not
under src/) persists orders in a key-value store iterated in key order; the
store is modelled as an association list kept strictly sorted by key.
Inserting overwrites an existing binding of the same key. -/
def kvInsert (k : String) (v : DexOrder) :
    List (String × DexOrder) → List (String × DexOrder)
  | [] => [(k, v)]
  | (k', v') :: rest =>
    if k < k' then (k, v) :: (k', v') :: rest
    else if k = k' then (k, v) :: rest
    else (k', v') :: kvInsert k v rest

/-- The global index obtained by adding the given orders in sequence under
their order identifiers. -/
def buildGlobal (os : List DexOrder) : List (String × DexOrder) :=
  os.foldl (fun s o => kvInsert (orderIDOf o) o s) []

/-- Modelled from the spec: `GetAllOrders()` of the GlobalOrderKeeper (not
under src/) returns every resting order across every pair in the key order
of the underlying index (spec section 4.2). -/
def GetAllOrders (g : List (String × DexOrder)) : List DexOrder := g.map (·.2)

/-- Modelled from the spec: the DelistScheduler state — the recorded
(pair, effective time) delist requests. -/
structure DelistState where
  entries : List (String × Int)
deriving DecidableEq, Repr

/-- Modelled from the spec: recording a pair cancellation with its effective
time (spec section 4.4). -/
def recordDelist (s : DelistState) (pair : String) (t : Int) : DelistState :=
  ⟨s.entries ++ [(pair, t)]⟩

/-- Modelled from the spec: `GetDelistSymbolsBeforeTime(time)` of the
DelistKeeper (implementation not under src/) returns all pairs whose
recorded effective time is at most `time` (spec section 4.4). -/
def GetDelistSymbolsBeforeTime (s : DelistState) (time : Int) : List String :=
  (s.entries.filter (fun e => e.2 ≤ time)).map (·.1)

/-- Big-endian bytes of `u`, `n` bytes wide (binary.BigEndian.PutUint64). -/
def natToBytesBE : Nat → Nat → List Nat
  | 0, _ => []
  | n + 1, u => natToBytesBE n (u / 256) ++ [u % 256]

/-- Read back a big-endian byte string (binary.BigEndian.Uint64). -/
def bytesToNatBE (bs : List Nat) : Nat := bs.foldl (fun a b => a * 256 + b) 0

/-- Two's-complement encoding of a signed 64-bit value into 8 big-endian
bytes, as `PutUint64(v, uint64(unixTime))` does. -/
def int64ToBytes (v : Int) : List Nat := natToBytesBE 8 (v % (2 ^ 64 : Int)).toNat

/-- Decode 8 big-endian bytes as a signed 64-bit value, as
`int64(binary.BigEndian.Uint64(v))` does. -/
def bytesToInt64 (bs : List Nat) : Int :=
  let u := bytesToNatBE bs
  if u < 2 ^ 63 then (u : Int) else (u : Int) - 2 ^ 64

/-- Modelled from the spec: the store key under which the CleanupScheduler
(OrderCleanUpDayKeeper, not under src/) persists its day marker. -/
def unixTimeKey : String := "order-clean-up-day"

/-- A raw key-value store holding byte strings, as the keeper's substore. -/
structure KVStore where
  get : String → Option (List Nat)

/-- Modelled from the spec: `SetUnixTime(value)` of the CleanupScheduler
(spec section 4.3) persists the signed scalar, and nothing else, under its
dedicated key. -/
def SetUnixTime (s : KVStore) (v : Int) : KVStore :=
  ⟨fun k => if k = unixTimeKey then some (int64ToBytes v) else s.get k⟩

/-- Modelled from the spec: `GetUnixTime()` of the CleanupScheduler reads the
persisted signed scalar back (0 when unset, the keeper's zero value). -/
def GetUnixTime (s : KVStore) : Int :=
  match s.get unixTimeKey with
  | none => 0
  | some bs => bytesToInt64 bs

/-- Typed errors of the market module, one constructor per distinct error
construction in src/unnamed/part_001 plus the keeper-level failures the spec
names for the modelled MarketEngine paths. -/
inductive SdkError where
  | invalidAddress (msg : String)
  | invalidSymbol
  | invalidPricePrecision
  | invalidTradeSide
  | invalidOrderType
  | invalidPrice (p : Int)
  | invalidOrderID
  | invalidTime
  | stockAndMoneyEqual
  | pairNotExist
  | pairPendingDelist
  | invalidOrderAmount
  | tokenForbidden
  | insufficientCoins
  | pairAlreadyExist
deriving DecidableEq, Repr

/-- MsgCreateOrder (src/unnamed/part_001:92-103); the byte-typed fields are
naturals, the sender address its raw byte string. -/
structure MsgCreateOrder where
  sender : List Nat
  sequence : Nat
  tradingPair : String
  orderType : Nat
  pricePrecision : Nat
  price : Int
  quantity : Int
  side : Nat
  timeInForce : Nat
  existBlocks : Nat
deriving DecidableEq, Repr

/-- MsgCreateOrder.ValidateBasic (src/unnamed/part_001:109-137), check for
check in source order.  The Go `msg.PricePrecision < 0` conjunct is dropped:
PricePrecision is an unsigned byte, so that test is identically false. -/
def MsgCreateOrder.validateBasic (msg : MsgCreateOrder) : Option SdkError :=
  if msg.sender.length = 0 then some (.invalidAddress "missing creator address")
  else if msg.tradingPair.length = 0 then
    some (.invalidAddress "missing GTE order TradingPair identifier")
  else if maxTokenPricePrecision < msg.pricePrecision then
    some (.invalidAddress "price precision value out of range [0, 18]")
  else if msg.side ≠ BUY ∧ msg.side ≠ SELL then some .invalidTradeSide
  else if msg.orderType ≠ limitOrder then some .invalidOrderType
  else if (msg.tradingPair.splitOn symbolSeparator).length ≠ 2 then
    some .invalidSymbol
  else if msg.price ≤ 0 ∨ maxTokenAmount < msg.price then
    some (.invalidPrice msg.price)
  else none

/-- MsgCreateTradingPair (src/unnamed/part_001:40-45). -/
structure MsgCreateTradingPair where
  stock : String
  money : String
  creator : List Nat
  pricePrecision : Nat
deriving DecidableEq, Repr

/-- MsgCreateTradingPair.ValidateBasic (src/unnamed/part_001:63-77), check
for check in source order. -/
def MsgCreateTradingPair.validateBasic (msg : MsgCreateTradingPair) :
    Option SdkError :=
  if msg.creator.length = 0 then some (.invalidAddress "missing creator address")
  else if msg.stock.length = 0 ∨ msg.money.length = 0 then some .invalidSymbol
  else if sdkPrecision < msg.pricePrecision then some .invalidPricePrecision
  else if msg.money = msg.stock then some .stockAndMoneyEqual
  else none

/-- A trading pair record (spec section 3). -/
structure TradingPair where
  stock : String
  money : String
  creator : List Nat
  pricePrecision : Nat
  lastExecutedPrice : Dec
  pendingDelist : Bool
deriving DecidableEq, Repr

/-- The engine state the modelled MarketEngine operations act on: the pair
table, the global order index and the per-pair books. -/
structure MarketState where
  pairs : List (String × TradingPair)
  global : List (String × DexOrder)
  books : List (String × OrderBook)
deriving Repr

/-- Association-list lookup by key. -/
def alookup {α : Type} (k : String) : List (String × α) → Option α
  | [] => none
  | (k', v) :: rest => if k = k' then some v else alookup k rest

/-- The freeze formula of spec sections 3 and 8: the collateral held for an
order with `stock` units left is the rounded money value `price * stock` for
a buy and `stock` itself for a sell. -/
def freezeOf (side : Nat) (price : Dec) (stock : Int) : Int :=
  if side = BUY then (price.mul (Dec.newDec stock)).roundInt64 else stock

/-- Modelled from the spec: `CreateOrder` of the MarketEngine (spec section
4.5; handler and keeper not under src/).  It runs the embedded
ValidateBasic, then the keeper-level checks the spec lists: pair known and
not pending-delist, positive quantity, price precision matching the pair,
the external forbidden-token and collateral-freeze outcomes (passed in as
collaborator verdicts).  On success the order is inserted into the global
index and the pair's book; every failure returns the typed error and leaves
the state untouched. -/
def createOrder (st : MarketState) (msg : MsgCreateOrder)
    (tokenForbidden : Bool) (freezeOk : Bool) : Except SdkError MarketState :=
  match msg.validateBasic with
  | some e => .error e
  | none =>
    match alookup msg.tradingPair st.pairs with
    | none => .error .pairNotExist
    | some pair =>
      if pair.pendingDelist then .error .pairPendingDelist
      else if msg.quantity ≤ 0 then .error .invalidOrderAmount
      else if msg.pricePrecision ≠ pair.pricePrecision then .error .invalidPricePrecision
      else if tokenForbidden then .error .tokenForbidden
      else if ¬ freezeOk then .error .insufficientCoins
      else
        let decPrice := (Dec.newDec msg.price).quoInt ((10 : Int) ^ msg.pricePrecision)
        let order : DexOrder :=
          { sender := toString msg.sender
            sequence := msg.sequence
            tradingPair := msg.tradingPair
            orderType := msg.orderType
            price := decPrice
            quantity := msg.quantity
            side := msg.side
            timeInForce := msg.timeInForce
            height := 0
            freeze := freezeOf msg.side decPrice msg.quantity
            leftStock := msg.quantity }
        let book := (alookup msg.tradingPair st.books).getD ⟨[]⟩
        .ok { st with
              global := kvInsert (orderIDOf order) order st.global
              books := (msg.tradingPair,
                        OrderBook.mk (book.entries ++ [(book.entries.length, order)]))
                       :: st.books.filter (fun e => e.1 ≠ msg.tradingPair) }

/-- The state after a CreateOrder attempt: the new state on success, the old
state on failure (validation failures perform no state mutation). -/
def applyCreateOrder (st : MarketState) (msg : MsgCreateOrder)
    (tokenForbidden : Bool) (freezeOk : Bool) : MarketState :=
  match createOrder st msg tokenForbidden freezeOk with
  | .ok st' => st'
  | .error _ => st

/-- Modelled from the spec: `CreateTradingPair` of the MarketEngine (spec
section 4.5; handler and keeper not under src/): the embedded ValidateBasic,
then the pair-exists check and the external creation-fee outcome; on success
the pair is stored active. -/
def createTradingPair (st : MarketState) (msg : MsgCreateTradingPair)
    (feeOk : Bool) : Except SdkError MarketState :=
  match msg.validateBasic with
  | some e => .error e
  | none =>
    let sym := msg.stock ++ symbolSeparator ++ msg.money
    match alookup sym st.pairs with
    | some _ => .error .pairAlreadyExist
    | none =>
      if ¬ feeOk then .error .insufficientCoins
      else
        .ok { st with
              pairs := (sym,
                        TradingPair.mk msg.stock msg.money msg.creator
                          msg.pricePrecision ⟨0⟩ false) :: st.pairs }

/-- The state after a CreateTradingPair attempt: unchanged on failure. -/
def applyCreateTradingPair (st : MarketState) (msg : MsgCreateTradingPair)
    (feeOk : Bool) : MarketState :=
  match createTradingPair st msg feeOk with
  | .ok st' => st'
  | .error _ => st

/-- Modelled from the spec: fill application of the end-of-block pass (spec
section 4.5; not under src/) reduces leftStock by the traded stock and keeps
the freeze exactly consistent with the remaining leftStock under the freeze
formula (spec sections 3 and 8). -/
def applyFill (o : DexOrder) (dealStock : Int) : DexOrder :=
  let left := o.leftStock - dealStock
  { o with leftStock := left, freeze := freezeOf o.side o.price left }

/-- The spec-side money amount of a buy: price (scaled by 10^4 in NewTO's
test pairs) times quantity, rounded half to even at unit precision — stated
over plain integers, independent of the Dec pipeline. -/
def roundedMoney (price qua : Int) : Int :=
  chopRoundInt (10 ^ 4) (5 * 10 ^ 3) (price * qua)

theorem bytesToNatBE_natToBytesBE (n u : Nat) (h : u < 256 ^ n) :
    bytesToNatBE (natToBytesBE n u) = u := by
  induction n generalizing u with
  | zero =>
    interval_cases u
    rfl
  | succ n ih =>
    have hdiv : u / 256 < 256 ^ n := by
      rw [Nat.div_lt_iff_lt_mul (by norm_num)]
      calc u < 256 ^ (n + 1) := h
        _ = 256 ^ n * 256 := by ring
    unfold natToBytesBE bytesToNatBE
    rw [List.foldl_append]
    have := ih (u / 256) hdiv
    unfold bytesToNatBE at this
    rw [this]
    simp only [List.foldl_cons, List.foldl_nil]
    omega

/-- C9: for every signed 64-bit value v, SetUnixTime(v) followed by
GetUnixTime() returns exactly v, and SetUnixTime changes no key of the store
other than the scheduler's own. -/
theorem setUnixTime_getUnixTime (s : KVStore) (v : Int)
    (hlo : -(2 ^ 63 : Int) ≤ v) (hhi : v < 2 ^ 63) :
    GetUnixTime (SetUnixTime s v) = v ∧
    ∀ k, k ≠ unixTimeKey → (SetUnixTime s v).get k = s.get k := by
  constructor
  · have hnn : (0 : Int) ≤ v % 2 ^ 64 := Int.emod_nonneg v (by norm_num)
    have hub : v % 2 ^ 64 < 2 ^ 64 := Int.emod_lt_of_pos v (by norm_num)
    have hcast : ((v % 2 ^ 64).toNat : Int) = v % 2 ^ 64 := Int.toNat_of_nonneg hnn
    have hrt : bytesToNatBE (natToBytesBE 8 (v % (2 ^ 64 : Int)).toNat)
        = (v % (2 ^ 64 : Int)).toNat := by
      apply bytesToNatBE_natToBytesBE
      have h8 : (256 : Nat) ^ 8 = 2 ^ 64 := by norm_num
      omega
    have hget : (SetUnixTime s v).get unixTimeKey = some (int64ToBytes v) := by
      simp [SetUnixTime]
    unfold GetUnixTime
    rw [hget]
    show bytesToInt64 (int64ToBytes v) = v
    unfold bytesToInt64 int64ToBytes
    rw [hrt]
    dsimp only
    split
    · omega
    · omega
  · intro k hk
    simp [SetUnixTime, hk]

/-- C9 witness: the concrete round trip of TestOrderCleanUpDayKeeper's
negative value on an empty store. -/
theorem setUnixTime_getUnixTime_witness :
    GetUnixTime (SetUnixTime ⟨fun _ => none⟩ (-173122)) = -173122 :=
  (setUnixTime_getUnixTime ⟨fun _ => none⟩ (-173122)
    (by norm_num) (by norm_num)).1

/-- C7: a pair recorded for delisting with effective time T is returned by
GetDelistSymbolsBeforeTime(time) exactly when T is at most time; in
particular it is returned at time T+1 and not at time T-1. -/
theorem getDelistSymbolsBeforeTime_spec (s : DelistState) (pair : String)
    (T : Int) (hmem : (pair, T) ∈ s.entries)
    (huniq : ∀ T', (pair, T') ∈ s.entries → T' = T) :
    (∀ time, pair ∈ GetDelistSymbolsBeforeTime s time ↔ T ≤ time) ∧
    pair ∈ GetDelistSymbolsBeforeTime s (T + 1) ∧
    pair ∉ GetDelistSymbolsBeforeTime s (T - 1) := by
  have hiff : ∀ time, pair ∈ GetDelistSymbolsBeforeTime s time ↔ T ≤ time := by
    intro time
    unfold GetDelistSymbolsBeforeTime
    simp only [List.mem_map, List.mem_filter]
    constructor
    · rintro ⟨⟨p, t⟩, ⟨hin, hle⟩, hfst⟩
      simp only at hfst
      subst hfst
      have := huniq t hin
      subst this
      exact of_decide_eq_true hle
    · intro hle
      exact ⟨(pair, T), ⟨hmem, decide_eq_true hle⟩, rfl⟩
  refine ⟨hiff, (hiff (T + 1)).mpr (by omega), fun hc => ?_⟩
  have := (hiff (T - 1)).mp hc
  omega

/-- C7 witness: a pair scheduled at effective time 100 is swept at 101 and
not at 99. -/
theorem getDelistSymbolsBeforeTime_witness :
    "cet/usdt" ∈
      GetDelistSymbolsBeforeTime (recordDelist ⟨[]⟩ "cet/usdt" 100) (100 + 1) ∧
    "cet/usdt" ∉
      GetDelistSymbolsBeforeTime (recordDelist ⟨[]⟩ "cet/usdt" 100) (100 - 1) :=
  ⟨(getDelistSymbolsBeforeTime_spec (recordDelist ⟨[]⟩ "cet/usdt" 100)
      "cet/usdt" 100 (by decide)
      (by intro T' hT; simp [recordDelist] at hT; omega)).2.1,
   (getDelistSymbolsBeforeTime_spec (recordDelist ⟨[]⟩ "cet/usdt" 100)
      "cet/usdt" 100 (by decide)
      (by intro T' hT; simp [recordDelist] at hT; omega)).2.2⟩

theorem indexFrom_filter_height (i : Nat) (os : List DexOrder) (h : Int) :
    ((indexFrom i os).filter (fun e => e.2.height = h)).map (·.2)
      = os.filter (fun o => o.height = h) := by
  induction os generalizing i with
  | nil => rfl
  | cons o os ih =>
    by_cases hh : o.height = h
    · simp [indexFrom, List.filter_cons, hh, ih]
    · simp [indexFrom, List.filter_cons, hh, ih]

/-- C8: GetOrdersAtHeight(h) returns exactly the resting orders created at
height h, in insertion order; on the six-order example book it returns the
two height-998 orders in insertion order. -/
theorem getOrdersAtHeight_spec (os : List DexOrder) (h : Int) :
    GetOrdersAtHeight (mkBook os) h = os.filter (fun o => o.height = h) ∧
    GetOrdersAtHeight book1 998 = [to1_0, to1_1] := by
  constructor
  · exact indexFrom_filter_height 0 os h
  · decide

theorem mem_snd_indexFrom {e : Nat × DexOrder} {i : Nat} {os : List DexOrder}
    (h : e ∈ indexFrom i os) : e.2 ∈ os := by
  induction os generalizing i with
  | nil => cases h
  | cons o os ih =>
    rcases List.mem_cons.mp h with rfl | h
    · exact List.mem_cons_self _ _
    · exact List.mem_cons_of_mem _ (ih h)

theorem exists_mem_indexFrom {o : DexOrder} {i : Nat} {os : List DexOrder}
    (h : o ∈ os) : ∃ j, (j, o) ∈ indexFrom i os := by
  induction os generalizing i with
  | nil => cases h
  | cons o' os ih =>
    rcases List.mem_cons.mp h with rfl | h
    · exact ⟨i, List.mem_cons_self _ _⟩
    · obtain ⟨j, hj⟩ := ih (i := i + 1) h
      exact ⟨j, List.mem_cons_of_mem _ hj⟩

/-- C2 (amended): GetOlderThan(h) returns exactly the resting orders of
creationHeight strictly below h, in descending creationHeight order (the
reverse iteration the repository's test pins), and is empty whenever h is at
most every resting creationHeight (in particular at most the minimum). -/
theorem getOlderThan_spec (os : List DexOrder) (h : Int) :
    (∀ o, o ∈ GetOlderThan (mkBook os) h ↔ o ∈ os ∧ o.height < h) ∧
    List.Pairwise (fun x y => y.height ≤ x.height) (GetOlderThan (mkBook os) h) ∧
    ((∀ o ∈ os, h ≤ o.height) → GetOlderThan (mkBook os) h = []) := by
  refine ⟨?_, ?_, ?_⟩
  · intro o
    unfold GetOlderThan mkBook
    simp only [List.mem_map, List.mem_reverse, List.mem_insertionSort,
      List.mem_filter, decide_eq_true_eq]
    constructor
    · rintro ⟨e, ⟨he, hh⟩, rfl⟩
      exact ⟨mem_snd_indexFrom he, hh⟩
    · rintro ⟨ho, hh⟩
      obtain ⟨j, hj⟩ := exists_mem_indexFrom (i := 0) ho
      exact ⟨(j, o), ⟨hj, hh⟩, rfl⟩
  · unfold GetOlderThan
    have hs := List.sorted_insertionSort heightSeqLe
      ((mkBook os).entries.filter (fun e => e.2.height < h))
    have hrev : List.Pairwise (fun a b => heightSeqLe b a)
        (List.insertionSort heightSeqLe
          ((mkBook os).entries.filter (fun e => e.2.height < h))).reverse :=
      List.pairwise_reverse.mpr hs
    refine List.Pairwise.map _ ?_ hrev
    intro a b hab
    rcases hab with h1 | ⟨h1, _⟩
    · exact le_of_lt h1
    · exact le_of_eq h1
  · intro hall
    unfold GetOlderThan mkBook
    have hfil : (indexFrom 0 os).filter (fun e => e.2.height < h) = [] := by
      rw [List.filter_eq_nil_iff]
      intro e he
      simp only [decide_eq_true_eq, not_lt]
      exact hall e.2 (mem_snd_indexFrom he)
    rw [hfil]
    rfl

/-- C2 counterexample: on the createTO1 book the heights returned by
GetOlderThan(997) are 996, 992, 990 in that sequence — descending, not the
ascending creationHeight order the claim states (this is exactly the
sequence TestOrderBook1, src/unnamed/part_000:626-631, expects). -/
theorem getOlderThan_not_ascending :
    (GetOlderThan book1 997).map DexOrder.height = [996, 992, 990] ∧
    ¬ List.Pairwise (fun a b => a.height ≤ b.height) (GetOlderThan book1 997) := by
  constructor
  · decide
  · intro hp
    have hmap : List.Pairwise (fun x y => x ≤ y)
        ((GetOlderThan book1 997).map DexOrder.height) :=
      List.Pairwise.map DexOrder.height (fun a b hab => hab) hp
    rw [(by decide : (GetOlderThan book1 997).map DexOrder.height
          = [996, 992, 990])] at hmap
    have h996 : (996 : Int) ≤ 992 :=
      List.rel_of_pairwise_cons hmap (by norm_num)
    norm_num at h996

/-- C2 witness: concrete instances of the amended statement at the test
book — membership of the height-996 order and emptiness at height 990. -/
theorem getOlderThan_spec_witness :
    to1_5 ∈ GetOlderThan book1 997 ∧ GetOlderThan book1 990 = [] :=
  ⟨((getOlderThan_spec createTO1 997).1 to1_5).mpr ⟨by decide, by decide⟩,
   (getOlderThan_spec createTO1 990).2.2 (by decide)⟩

/-- C1: GetMatchingCandidates is empty whenever the book is one-sided (no
resting buys or no resting sells), and whenever both sides are non-empty but
the best bid price is strictly below the best ask price. -/
theorem getMatchingCandidates_empty (b : OrderBook) :
    (buysOf b = [] → GetMatchingCandidates b = []) ∧
    (sellsOf b = [] → GetMatchingCandidates b = []) ∧
    (∀ bb ba, bestBidPrice b = some bb → bestAskPrice b = some ba → bb < ba →
      GetMatchingCandidates b = []) := by
  refine ⟨?_, ?_, ?_⟩
  · intro hb
    have hnone : bestBidPrice b = none := by
      unfold bestBidPrice
      rw [hb]
    unfold GetMatchingCandidates
    rw [hnone]
  · intro hs
    have hnone : bestAskPrice b = none := by
      unfold bestAskPrice
      rw [hs]
    unfold GetMatchingCandidates
    rw [hnone]
    cases bestBidPrice b <;> rfl
  · intro bb ba hbb hba hlt
    unfold GetMatchingCandidates
    rw [hbb, hba]
    dsimp only
    rw [if_neg (not_le.mpr hlt)]

/-- C1 witness: the three empty-result situations on the concrete test
books — only buys (TestOrderBook2a), only sells (TestOrderBook2b), and the
non-crossing createTO3 book (TestOrderBook3). -/
theorem getMatchingCandidates_empty_witness :
    GetMatchingCandidates bookBuys = [] ∧
    GetMatchingCandidates bookSells = [] ∧
    GetMatchingCandidates book3 = [] :=
  ⟨(getMatchingCandidates_empty bookBuys).2.1 (by decide),
   (getMatchingCandidates_empty bookSells).1 (by decide),
   (getMatchingCandidates_empty book3).2.2 (1108 * 10 ^ 15) (1201 * 10 ^ 15)
     (by decide) (by decide) (by decide)⟩

theorem int_toNat_mul_natCast (a : Int) (c : Nat) (ha : 0 ≤ a) :
    (a * (c : Int)).toNat = a.toNat * c := by
  rcases Int.eq_ofNat_of_zero_le ha with ⟨n, rfl⟩
  rw [show ((n : Int) * (c : Int)) = ((n * c : Nat) : Int) by push_cast; ring]
  exact Int.toNat_natCast (n * c)

theorem chopRoundNat_scale (e hf c d : Nat) (hc : 0 < c) :
    chopRoundNat (e * c) (hf * c) (d * c) = chopRoundNat e hf d := by
  unfold chopRoundNat
  rw [Nat.mul_div_mul_right d e hc, Nat.mul_mod_mul_right c d e]
  simp only [Nat.mul_eq_zero, or_iff_left hc.ne', Nat.mul_lt_mul_right hc]

theorem chopRoundNat_mul_self (e hf m : Nat) (he : 0 < e) :
    chopRoundNat e hf (m * e) = m := by
  unfold chopRoundNat
  rw [Nat.mul_mod_left m e, if_pos rfl]
  exact Nat.mul_div_cancel m he

theorem chopRoundInt_scale (e hf c : Nat) (d : Int) (hc : 0 < c) :
    chopRoundInt (e * c) (hf * c) (d * (c : Int)) = chopRoundInt e hf d := by
  unfold chopRoundInt
  have hc' : (0 : Int) < (c : Int) := by exact_mod_cast hc
  by_cases hd : d < 0
  · rw [if_pos (mul_neg_of_neg_of_pos hd hc'), if_pos hd, ← neg_mul,
      int_toNat_mul_natCast (-d) c (by omega), chopRoundNat_scale e hf c _ hc]
  · rw [if_neg (not_lt.mpr (mul_nonneg (not_lt.mp hd) hc'.le)), if_neg hd,
      int_toNat_mul_natCast d c (not_lt.mp hd), chopRoundNat_scale e hf c _ hc]

theorem chopRoundInt_mul_self (e hf : Nat) (x : Int) (he : 0 < e) :
    chopRoundInt e hf (x * (e : Int)) = x := by
  unfold chopRoundInt
  have he' : (0 : Int) < (e : Int) := by exact_mod_cast he
  by_cases hx : x < 0
  · rw [if_pos (mul_neg_of_neg_of_pos hx he'), ← neg_mul,
      int_toNat_mul_natCast (-x) e (by omega), chopRoundNat_mul_self e hf _ he]
    omega
  · rw [if_neg (not_lt.mpr (mul_nonneg (not_lt.mp hx) he'.le)),
      int_toNat_mul_natCast x e (not_lt.mp hx), chopRoundNat_mul_self e hf _ he]
    omega

theorem quoInt_newDec_tenThousand (price : Int) :
    ((Dec.newDec price).quoInt 10000).i = price * 10 ^ 14 := by
  unfold Dec.newDec Dec.quoInt
  dsimp only
  rw [show price * ((decUnit : Nat) : Int) = price * 10 ^ 14 * 10 ^ 4 by
    norm_num [decUnit]; ring]
  exact Int.mul_tdiv_cancel _ (by norm_num)

/-- C3: at creation the freeze of a buy order is exactly the money amount
price times quantity (rounded half-to-even at the money unit, the sdk Dec
rounding), the freeze of a sell order is exactly the quantity; the freeze
always satisfies the freeze formula of leftStock at creation, and the
modelled fill application preserves that consistency at every later
observable state. -/
theorem freeze_consistency :
    (∀ sender seq price qua tif h,
      (NewTO sender seq price qua BUY tif h).freeze = roundedMoney price qua) ∧
    (∀ sender seq price qua tif h,
      (NewTO sender seq price qua SELL tif h).freeze = qua) ∧
    (∀ sender seq price qua side tif h,
      (NewTO sender seq price qua side tif h).freeze
        = freezeOf side ((Dec.newDec price).quoInt 10000)
            (NewTO sender seq price qua side tif h).leftStock) ∧
    (∀ (o : DexOrder) (deal : Int),
      o.freeze = freezeOf o.side o.price o.leftStock →
      (applyFill o deal).freeze
        = freezeOf o.side o.price (applyFill o deal).leftStock) := by
  refine ⟨?_, ?_, ?_, ?_⟩
  · intro sender seq price qua tif h
    unfold NewTO
    dsimp only
    rw [if_pos rfl]
    unfold Dec.mul Dec.roundInt64 chopPrecisionAndRound
    dsimp only
    rw [quoInt_newDec_tenThousand price]
    unfold Dec.newDec
    dsimp only
    rw [show price * 10 ^ 14 * (qua * ((decUnit : Nat) : Int))
          = price * qua * 10 ^ 14 * ((decUnit : Nat) : Int) by ring]
    rw [chopRoundInt_mul_self decUnit decHalf _ (by norm_num [decUnit])]
    rw [show price * qua * 10 ^ 14 = price * qua * (((10 : Nat) ^ 14 : Nat) : Int) by
      norm_num]
    rw [show (decUnit : Nat) = 10 ^ 4 * 10 ^ 14 by norm_num [decUnit],
      show (decHalf : Nat) = 5 * 10 ^ 3 * 10 ^ 14 by norm_num [decHalf]]
    rw [chopRoundInt_scale (10 ^ 4) (5 * 10 ^ 3) (10 ^ 14) _ (by norm_num)]
    rfl
  · intro sender seq price qua tif h
    unfold NewTO
    dsimp only
    rw [if_neg (by norm_num [SELL, BUY])]
  · intro sender seq price qua side tif h
    rfl
  · intro o deal hfz
    rfl

/-- C3 witness: the preservation conjunct applied to a concrete partial fill
of the first createTO1 buy order. -/
theorem freeze_consistency_witness :
    (applyFill to1_0 10).freeze
      = freezeOf to1_0.side to1_0.price (applyFill to1_0 10).leftStock :=
  freeze_consistency.2.2.2 to1_0 10 (by decide)

theorem mem_keys_iff (x : String) (l : List (String × DexOrder)) :
    x ∈ l.map (·.1) ↔ ∃ w, (x, w) ∈ l := by
  rw [List.mem_map]
  constructor
  · rintro ⟨⟨a, b⟩, hab, rfl⟩
    exact ⟨b, hab⟩
  · rintro ⟨w, hw⟩
    exact ⟨(x, w), hw, rfl⟩

theorem mem_kvInsert_of_fresh (k : String) (v : DexOrder)
    (s : List (String × DexOrder)) (hk : k ∉ s.map (·.1)) (e : String × DexOrder) :
    e ∈ kvInsert k v s ↔ e = (k, v) ∨ e ∈ s := by
  induction s with
  | nil => simp [kvInsert]
  | cons hd tl ih =>
    obtain ⟨k', v'⟩ := hd
    have hk' : k ≠ k' := fun hkk => hk (by simp [hkk])
    have hktl : k ∉ tl.map (·.1) := fun hmem => hk (by simp; exact Or.inr ((mem_keys_iff k tl).mp hmem))
    unfold kvInsert
    by_cases hlt : k < k'
    · rw [if_pos hlt]
      exact List.mem_cons
    · rw [if_neg hlt, if_neg hk', List.mem_cons, ih hktl, List.mem_cons]
      tauto

theorem keys_kvInsert (k : String) (v : DexOrder) (s : List (String × DexOrder))
    (x : String) (w : DexOrder) (hw : (x, w) ∈ kvInsert k v s) :
    x = k ∨ x ∈ s.map (·.1) := by
  induction s with
  | nil =>
    rcases List.mem_cons.mp hw with h | h
    · exact Or.inl (congrArg Prod.fst h)
    · cases h
  | cons hd tl ih =>
    obtain ⟨k', v'⟩ := hd
    unfold kvInsert at hw
    by_cases hlt : k < k'
    · rw [if_pos hlt] at hw
      rcases List.mem_cons.mp hw with h | h
      · exact Or.inl (congrArg Prod.fst h)
      · exact Or.inr ((mem_keys_iff x _).mpr ⟨w, h⟩)
    · rw [if_neg hlt] at hw
      by_cases heq : k = k'
      · rw [if_pos heq] at hw
        rcases List.mem_cons.mp hw with h | h
        · exact Or.inl (congrArg Prod.fst h)
        · exact Or.inr (by
            rw [mem_keys_iff]
            exact ⟨w, List.mem_cons_of_mem _ h⟩)
      · rw [if_neg heq] at hw
        rcases List.mem_cons.mp hw with h | h
        · injection h with h1 h2
          subst h1
          exact Or.inr (by
            rw [mem_keys_iff]
            exact ⟨v', List.mem_cons_self _ _⟩)
        · rcases ih h with h' | h'
          · exact Or.inl h'
          · exact Or.inr (by
              rcases (mem_keys_iff x tl).mp h' with ⟨w', hw'⟩
              rw [mem_keys_iff]
              exact ⟨w', List.mem_cons_of_mem _ hw'⟩)

theorem sorted_kvInsert (k : String) (v : DexOrder) (s : List (String × DexOrder))
    (hs : List.Pairwise (fun a b => a.1 < b.1) s) :
    List.Pairwise (fun a b => a.1 < b.1) (kvInsert k v s) := by
  induction s with
  | nil => simp [kvInsert]
  | cons hd tl ih =>
    obtain ⟨k', v'⟩ := hd
    rw [List.pairwise_cons] at hs
    obtain ⟨hhd, htl⟩ := hs
    unfold kvInsert
    by_cases hlt : k < k'
    · rw [if_pos hlt, List.pairwise_cons]
      refine ⟨?_, List.Pairwise.cons hhd htl⟩
      intro e he
      rcases List.mem_cons.mp he with rfl | he
      · exact hlt
      · exact lt_trans hlt (hhd e he)
    · rw [if_neg hlt]
      by_cases heq : k = k'
      · rw [if_pos heq, List.pairwise_cons]
        exact ⟨fun e he => heq ▸ hhd e he, htl⟩
      · rw [if_neg heq, List.pairwise_cons]
        have hgt : k' < k := by
          rcases lt_trichotomy k k' with h | h | h
          · exact absurd h hlt
          · exact absurd h heq
          · exact h
        refine ⟨?_, ih htl⟩
        intro e he
        obtain ⟨x, w⟩ := e
        rcases keys_kvInsert k v tl x w he with h | h
        · exact h ▸ hgt
        · rcases (mem_keys_iff x tl).mp h with ⟨w', hw'⟩
          exact hhd (x, w') hw'

theorem insertAll_spec (l : List DexOrder) :
    ∀ (s : List (String × DexOrder)),
    (l.map orderIDOf).Nodup →
    (∀ o ∈ l, orderIDOf o ∉ s.map (·.1)) →
    List.Pairwise (fun a b => a.1 < b.1) s →
    List.Pairwise (fun a b => a.1 < b.1)
      (l.foldl (fun s o => kvInsert (orderIDOf o) o s) s) ∧
    (∀ e, e ∈ l.foldl (fun s o => kvInsert (orderIDOf o) o s) s ↔
      e ∈ s ∨ ∃ o ∈ l, e = (orderIDOf o, o)) := by
  induction l with
  | nil =>
    intro s _ _ hs
    exact ⟨hs, fun e => by simp⟩
  | cons o l ih =>
    intro s hnodup hfresh hs
    rw [List.map_cons, List.nodup_cons] at hnodup
    obtain ⟨hko, hnodup'⟩ := hnodup
    have hfro : orderIDOf o ∉ s.map (·.1) := hfresh o (List.mem_cons_self _ _)
    have hfresh' : ∀ o' ∈ l,
        orderIDOf o' ∉ (kvInsert (orderIDOf o) o s).map (·.1) := by
      intro o' ho' hmem
      rcases (mem_keys_iff _ _).mp hmem with ⟨w, hw⟩
      rcases keys_kvInsert _ _ _ _ _ hw with h | h
      · exact hko (h ▸ List.mem_map_of_mem orderIDOf ho')
      · exact hfresh o' (List.mem_cons_of_mem _ ho') h
    have hs' := sorted_kvInsert (orderIDOf o) o s hs
    obtain ⟨ihs, ihm⟩ := ih (kvInsert (orderIDOf o) o s) hnodup' hfresh' hs'
    refine ⟨ihs, ?_⟩
    intro e
    rw [List.foldl_cons, ihm e, mem_kvInsert_of_fresh _ _ _ hfro e]
    simp only [List.mem_cons]
    constructor
    · rintro ((rfl | he) | ⟨o', ho', rfl⟩)
      · exact Or.inr ⟨o, Or.inl rfl, rfl⟩
      · exact Or.inl he
      · exact Or.inr ⟨o', Or.inr ho', rfl⟩
    · rintro (he | ⟨o', (rfl | ho'), rfl⟩)
      · exact Or.inl (Or.inr he)
      · exact Or.inl (Or.inl rfl)
      · exact Or.inr ⟨o', ho', rfl⟩

theorem sorted_key_ext (s₁ : List (String × DexOrder)) :
    ∀ (s₂ : List (String × DexOrder)),
    List.Pairwise (fun a b => a.1 < b.1) s₁ →
    List.Pairwise (fun a b => a.1 < b.1) s₂ →
    (∀ e, e ∈ s₁ ↔ e ∈ s₂) → s₁ = s₂ := by
  induction s₁ with
  | nil =>
    intro s₂ _ _ hm
    cases s₂ with
    | nil => rfl
    | cons b t => exact absurd ((hm b).mpr (List.mem_cons_self _ _)) (by simp)
  | cons a t₁ ih =>
    intro s₂ h₁ h₂ hm
    cases s₂ with
    | nil => exact absurd ((hm a).mp (List.mem_cons_self _ _)) (by simp)
    | cons b t₂ =>
      rw [List.pairwise_cons] at h₁ h₂
      obtain ⟨ha, ht₁⟩ := h₁
      obtain ⟨hb, ht₂⟩ := h₂
      have hab : a = b := by
        rcases List.mem_cons.mp ((hm a).mp (List.mem_cons_self _ _)) with h | h
        · exact h
        · rcases List.mem_cons.mp ((hm b).mpr (List.mem_cons_self _ _)) with h' | h'
          · exact h'.symm
          · exact absurd (hb a h) (not_lt.mpr (le_of_lt (ha b h')))
      subst hab
      have hmt : ∀ e, e ∈ t₁ ↔ e ∈ t₂ := by
        intro e
        constructor
        · intro he
          rcases List.mem_cons.mp ((hm e).mp (List.mem_cons_of_mem _ he)) with h | h
          · exact absurd (ha e he) (h ▸ lt_irrefl _)
          · exact h
        · intro he
          rcases List.mem_cons.mp ((hm e).mpr (List.mem_cons_of_mem _ he)) with h | h
          · exact absurd (hb e he) (h ▸ lt_irrefl _)
          · exact h
      rw [ih t₂ ht₁ ht₂ hmt]

/-- C4: GetAllOrders lists every resting order, and its sequence is a
function of the book state alone — any two insertion histories that are
permutations of each other (same resting orders, distinct identifiers)
produce identical GetAllOrders sequences. -/
theorem getAllOrders_deterministic (l₁ l₂ : List DexOrder)
    (hperm : l₁.Perm l₂) (hnodup : (l₁.map orderIDOf).Nodup) :
    (∀ o ∈ l₁, o ∈ GetAllOrders (buildGlobal l₁)) ∧
    GetAllOrders (buildGlobal l₁) = GetAllOrders (buildGlobal l₂) := by
  have hnodup₂ : (l₂.map orderIDOf).Nodup :=
    ((hperm.map orderIDOf).nodup_iff).mp hnodup
  obtain ⟨hs₁, hm₁⟩ := insertAll_spec l₁ [] hnodup (by simp) (by simp)
  obtain ⟨hs₂, hm₂⟩ := insertAll_spec l₂ [] hnodup₂ (by simp) (by simp)
  have hmem : ∀ e, e ∈ buildGlobal l₁ ↔ e ∈ buildGlobal l₂ := by
    intro e
    unfold buildGlobal
    rw [hm₁ e, hm₂ e]
    simp only [List.not_mem_nil, false_or]
    constructor
    · rintro ⟨o, ho, rfl⟩
      exact ⟨o, hperm.mem_iff.mp ho, rfl⟩
    · rintro ⟨o, ho, rfl⟩
      exact ⟨o, hperm.mem_iff.mpr ho, rfl⟩
  have heq : buildGlobal l₁ = buildGlobal l₂ := sorted_key_ext _ _ hs₁ hs₂ hmem
  constructor
  · intro o ho
    have hin : (orderIDOf o, o) ∈ buildGlobal l₁ := by
      unfold buildGlobal
      rw [hm₁]
      exact Or.inr ⟨o, ho, rfl⟩
    unfold GetAllOrders
    exact List.mem_map.mpr ⟨(orderIDOf o, o), hin, rfl⟩
  · unfold GetAllOrders
    rw [heq]

/-- C4 witness: two insertion histories of the same two test orders produce
the same global listing, which contains both orders. -/
theorem getAllOrders_deterministic_witness :
    to1_0 ∈ GetAllOrders (buildGlobal [to1_0, to1_1]) ∧
    GetAllOrders (buildGlobal [to1_0, to1_1])
      = GetAllOrders (buildGlobal [to1_1, to1_0]) :=
  ⟨(getAllOrders_deterministic [to1_0, to1_1] [to1_1, to1_0]
      (List.Perm.swap to1_1 to1_0 []) (by decide)).1 to1_0 (by decide),
   (getAllOrders_deterministic [to1_0, to1_1] [to1_1, to1_0]
      (List.Perm.swap to1_1 to1_0 []) (by decide)).2⟩

theorem validateBasic_some_of_invalid (msg : MsgCreateOrder)
    (hyp : msg.price ≤ 0 ∨ (msg.side ≠ BUY ∧ msg.side ≠ SELL)) :
    ∃ e, msg.validateBasic = some e := by
  unfold MsgCreateOrder.validateBasic
  split_ifs with h1 h2 h3 h4 h5 h6 h7
  all_goals try exact ⟨_, rfl⟩
  rcases hyp with hp | hside
  · exact absurd (Or.inl hp) h7
  · exact absurd hside h4

/-- C5: CreateOrder returns a typed error and leaves the state unchanged for
every request whose price is non-positive, whose quantity is non-positive,
or whose side is neither buy nor sell. -/
theorem createOrder_invalid_rejected (st : MarketState) (msg : MsgCreateOrder)
    (tokenForbidden freezeOk : Bool)
    (hyp : msg.price ≤ 0 ∨ msg.quantity ≤ 0 ∨ (msg.side ≠ BUY ∧ msg.side ≠ SELL)) :
    (∃ e, createOrder st msg tokenForbidden freezeOk = .error e) ∧
    applyCreateOrder st msg tokenForbidden freezeOk = st := by
  have herr : ∃ e, createOrder st msg tokenForbidden freezeOk = .error e := by
    cases hv : msg.validateBasic with
    | some e =>
      refine ⟨e, ?_⟩
      unfold createOrder
      rw [hv]
    | none =>
      have hq : msg.quantity ≤ 0 := by
        rcases hyp with hp | hq | hside
        · exact absurd hv (by
            obtain ⟨e, he⟩ := validateBasic_some_of_invalid msg (Or.inl hp)
            simp [he])
        · exact hq
        · exact absurd hv (by
            obtain ⟨e, he⟩ := validateBasic_some_of_invalid msg (Or.inr hside)
            simp [he])
      unfold createOrder
      rw [hv]
      cases hlk : alookup msg.tradingPair st.pairs with
      | none => exact ⟨_, rfl⟩
      | some pair =>
        dsimp only
        by_cases hpd : pair.pendingDelist
        · rw [if_pos hpd]
          exact ⟨_, rfl⟩
        · rw [if_neg hpd, if_pos hq]
          exact ⟨_, rfl⟩
  obtain ⟨e, he⟩ := herr
  refine ⟨⟨e, he⟩, ?_⟩
  unfold applyCreateOrder
  rw [he]

/-- C5 witness: a request with price -1 is rejected on the empty state and
mutates nothing. -/
theorem createOrder_invalid_rejected_witness :
    applyCreateOrder ⟨[], [], []⟩
      ⟨[1], 1, "cet/usdt", 2, 8, -1, 50, 1, 3, 10⟩ false true = ⟨[], [], []⟩ :=
  (createOrder_invalid_rejected ⟨[], [], []⟩
    ⟨[1], 1, "cet/usdt", 2, 8, -1, 50, 1, 3, 10⟩ false true
    (Or.inl (by norm_num))).2

theorem validateBasicPair_some_of_invalid (msg : MsgCreateTradingPair)
    (hyp : msg.stock = msg.money ∨ sdkPrecision < msg.pricePrecision) :
    ∃ e, msg.validateBasic = some e := by
  unfold MsgCreateTradingPair.validateBasic
  split_ifs with h1 h2 h3 h4
  · exact ⟨_, rfl⟩
  · exact ⟨_, rfl⟩
  · exact ⟨_, rfl⟩
  · exact ⟨_, rfl⟩
  · rcases hyp with hsm | hpr
    · exact absurd hsm.symm h4
    · exact absurd hpr h3

/-- C6: CreateTradingPair returns a typed error and stores no pair for every
request whose stock denom equals its money denom, and for every request
whose price precision exceeds the allowed maximum (the precision field is an
unsigned byte, so the range check reduces to the upper bound). -/
theorem createTradingPair_invalid_rejected (st : MarketState)
    (msg : MsgCreateTradingPair) (feeOk : Bool)
    (hyp : msg.stock = msg.money ∨ sdkPrecision < msg.pricePrecision) :
    (∃ e, createTradingPair st msg feeOk = .error e) ∧
    applyCreateTradingPair st msg feeOk = st := by
  obtain ⟨e, he⟩ := validateBasicPair_some_of_invalid msg hyp
  have herr : createTradingPair st msg feeOk = .error e := by
    unfold createTradingPair
    rw [he]
  refine ⟨⟨e, herr⟩, ?_⟩
  unfold applyCreateTradingPair
  rw [herr]

/-- C6 witness: creating a pair whose stock and money denoms are both "cet"
fails on the empty state and stores nothing. -/
theorem createTradingPair_invalid_rejected_witness :
    applyCreateTradingPair ⟨[], [], []⟩ ⟨"cet", "cet", [1], 8⟩ true
      = ⟨[], [], []⟩ :=
  (createTradingPair_invalid_rejected ⟨[], [], []⟩ ⟨"cet", "cet", [1], 8⟩ true
    (Or.inl rfl)).2

/-- C10 counterexample: the claim says every MsgCreateOrder with a non-limit
OrderType gets the invalid-order-type error from ValidateBasic; but the
sender check runs first, so a non-limit message with an empty sender gets
the invalid-address error instead. -/
theorem validateBasic_orderType_counterexample :
    (⟨[], 0, "cet/usdt", 0, 8, 100, 50, 1, 3, 0⟩ : MsgCreateOrder).orderType
        ≠ limitOrder ∧
    (⟨[], 0, "cet/usdt", 0, 8, 100, 50, 1, 3, 0⟩ : MsgCreateOrder).validateBasic
        ≠ some .invalidOrderType ∧
    (⟨[], 0, "cet/usdt", 0, 8, 100, 50, 1, 3, 0⟩ : MsgCreateOrder).validateBasic
        = some (.invalidAddress "missing creator address") := by
  refine ⟨by decide, by decide, by decide⟩

/-- C10 (amended): ValidateBasic rejects every MsgCreateOrder whose
OrderType is not the limit constant — so no non-limit order passes message
validation — and when the checks that run earlier (sender present, pair
identifier present, precision in range, valid side) all pass, the error is
specifically the invalid-order-type one. -/
theorem validateBasic_orderType_rejected (msg : MsgCreateOrder)
    (h : msg.orderType ≠ limitOrder) :
    (∃ e, msg.validateBasic = some e) ∧
    (msg.sender.length ≠ 0 → msg.tradingPair.length ≠ 0 →
     msg.pricePrecision ≤ maxTokenPricePrecision →
     (msg.side = BUY ∨ msg.side = SELL) →
     msg.validateBasic = some .invalidOrderType) := by
  constructor
  · unfold MsgCreateOrder.validateBasic
    split_ifs
    all_goals exact ⟨_, rfl⟩
  · intro hsender hpair hprec hside
    unfold MsgCreateOrder.validateBasic
    rw [if_neg hsender, if_neg hpair, if_neg (not_lt.mpr hprec),
      if_neg (by
        rintro ⟨hb, hsl⟩
        rcases hside with h' | h'
        · exact hb h'
        · exact hsl h'),
      if_pos h]

/-- C10 witness: a non-limit message whose earlier checks all pass draws
exactly the invalid-order-type error. -/
theorem validateBasic_orderType_rejected_witness :
    (⟨[1], 1, "cet/usdt", 0, 8, 100, 50, 1, 3, 0⟩ : MsgCreateOrder).validateBasic
      = some .invalidOrderType :=
  (validateBasic_orderType_rejected ⟨[1], 1, "cet/usdt", 0, 8, 100, 50, 1, 3, 0⟩
    (by decide)).2 (by decide) (by decide) (by decide) (Or.inl rfl)
